import Mathlib

/-
Verification development for the automatic data-linking engine of the rumee
backend (backend/src/services/DataLinkingService.ts, AIService.ts,
SummaryService.ts, and the mongoose models they touch).

Remote language-model calls and persistence outcomes are modelled by an
explicit environment (Env): each capability call is a function from its
inputs to an Except value (error = the awaited promise rejected: timeout,
malformed JSON, rate limit, ...), and each save is a boolean failure oracle
keyed by record id.  Stores are explicit lists of records in repository
query order; mongoose queries become filter/take, document saves become
keyed in-place updates.  Each service method body is a function returning
Except Store Store: the error branch carries the store as persisted at the
moment the exception was thrown, and the top-level try/catch of the source
becomes a wrapper producing (finalStore, errorWasCaughtAndLogged).
-/

/-- Entity bag parsed from the extraction capability response
(AIService.extractEntities return shape). -/
structure EntityBag where
  people : List String
  dates : List String
  topics : List String
  locations : List String
  organizations : List String
deriving DecidableEq

/-- One parsed connection object from the similarity capability response
(AIService.findConnections return shape: index, score, reason). -/
structure Connection where
  index : Nat
  score : ℚ
  reason : String
deriving DecidableEq

/-- Person document (backend/src/models/Person.ts), restricted to the fields
the linking engine touches. -/
structure PersonRec where
  id : String
  userId : String
  name : String
  linkedNotes : List String
  meetings : List String
deriving DecidableEq

/-- Note document (backend/src/models/Note.ts), restricted to the fields the
linking engine and summary service touch. -/
structure NoteRec where
  id : String
  userId : String
  title : String
  content : String
  linkedEntities : List String
  createdAt : Nat
deriving DecidableEq

/-- Meeting document (backend/src/models/Meeting.ts), restricted to the
fields the linking engine and summary service touch.  The date field is an
epoch timestamp; notes and description are optional as in the schema. -/
structure MeetingRec where
  id : String
  userId : String
  title : String
  description : Option String
  date : Nat
  notes : Option String
  actionItems : List String
  linkedNotes : List String
deriving DecidableEq

/-- Reminder document (backend/src/models/Reminder.ts), restricted to the
fields DataLinkingService.createRemindersFromActionItems writes. -/
structure ReminderRec where
  userId : String
  title : String
  dueDate : Nat
  type : String
  priority : String
  linkedEntity : String
  linkedEntityType : String
deriving DecidableEq

/-- The persisted database state: each collection as a list in repository
query order. -/
structure Store where
  persons : List PersonRec
  notes : List NoteRec
  meetings : List MeetingRec
  reminders : List ReminderRec
deriving DecidableEq

/-- Outcomes of the remote capability calls and of document saves for one
run: each AIService method result is the parsed response (or a rejection),
and saveFails/reminderSaveFails tell which document saves reject. -/
structure Env where
  extractEntities : String → Except Unit EntityBag
  findConnectionsResult : String → List String → Except Unit (List Connection)
  generateActionItemsResult : String → Except Unit (List String)
  generateDailySummaryResult : String → Except Unit String
  saveFails : String → Bool
  reminderSaveFails : Nat → Bool

/-- The catch wrapper shared by the DataLinkingService methods: an error
escaping the body is caught and logged, and the method returns normally; the
boolean records whether the catch block ran. -/
def settle : Except Store Store → Store × Bool
  | .ok s => (s, false)
  | .error s => (s, true)

/-- Modelled behavior of mongoose.Types.ObjectId construction and of query
casting of a string id: accepted exactly when the string is a 24-character
hexadecimal string, otherwise the constructor (or the query) throws. -/
def isValidObjectId (s : String) : Bool :=
  s.length == 24 && s.data.all fun c =>
    c.isDigit || (97 ≤ c.toNat && c.toNat ≤ 102) || (65 ≤ c.toNat && c.toNat ≤ 70)

/-- AIService.findConnections: posts the prompt for sourceText/targetTexts
and returns JSON.parse of the chat response verbatim; the service applies no
post-processing (in particular no sorting) to the parsed list. -/
def findConnections (env : Env) (sourceText : String) (targetTexts : List String) :
    Except Unit (List Connection) :=
  env.findConnectionsResult sourceText targetTexts

/-- Checks that a connection list is in descending score order with ties
broken by ascending candidate index. -/
def connectionsRankedOk : List Connection → Bool
  | [] => true
  | [_] => true
  | c1 :: c2 :: rest =>
      (c2.score < c1.score || (c2.score == c1.score && c1.index < c2.index)) &&
        connectionsRankedOk (c2 :: rest)

/-- Note.findById. -/
def findNoteById (s : Store) (id : String) : Option NoteRec :=
  s.notes.find? fun n => n.id == id

/-- Person.findById. -/
def findPersonById (s : Store) (id : String) : Option PersonRec :=
  s.persons.find? fun p => p.id == id

/-- Meeting.findById. -/
def findMeetingById (s : Store) (id : String) : Option MeetingRec :=
  s.meetings.find? fun m => m.id == id

/-- Persisting a fetched person document: replaces the stored document with
the same id. -/
def updatePersonInStore (s : Store) (p : PersonRec) : Store :=
  { s with persons := s.persons.map fun q => if q.id == p.id then p else q }

/-- Persisting a fetched note document. -/
def updateNoteInStore (s : Store) (n : NoteRec) : Store :=
  { s with notes := s.notes.map fun q => if q.id == n.id then n else q }

/-- Persisting a fetched meeting document. -/
def updateMeetingInStore (s : Store) (m : MeetingRec) : Store :=
  { s with meetings := s.meetings.map fun q => if q.id == m.id then m else q }

/-- Default note used only to express list lookups whose index is known to be
in range. -/
def defaultNote : NoteRec :=
  { id := "", userId := "", title := "", content := "", linkedEntities := [], createdAt := 0 }

/-- The candidate window of linkNoteToEntities: Note.find restricted to the
owner with the note itself excluded, first 50 in query order. -/
def queryWindowNotes (s : Store) (userId excludeId : String) : List NoteRec :=
  ((s.notes.filter fun n => n.userId == userId && n.id != excludeId).take 50)

/-- The in-memory accumulation of linked ids in the connection loops of
linkNoteToEntities and linkMeetingToData: for each connection with score
above the 0.6 threshold, window[connection.index] is dereferenced (an
out-of-range index makes the JS dereference throw) and its id is pushed. -/
def collectLinkedEntities (window : List NoteRec) :
    List Connection → List String → Except Unit (List String)
  | [], acc => .ok acc
  | c :: rest, acc =>
      if (0.6 : ℚ) < c.score then
        match window[c.index]? with
        | some n => collectLinkedEntities window rest (acc ++ [n.id])
        | none => .error ()
      else collectLinkedEntities window rest acc

/-- The person loop of linkNoteToEntities: for each matched person, push the
note id onto person.linkedNotes unconditionally and save; a save rejection
throws with the earlier saves already persisted. -/
def linkNotePeopleLoop (env : Env) (noteId : String) :
    List PersonRec → Store → Except Store Store
  | [], s => .ok s
  | p :: rest, s =>
      if isValidObjectId noteId then
        if env.saveFails p.id then .error s
        else
          linkNotePeopleLoop env noteId rest
            (updatePersonInStore s { p with linkedNotes := p.linkedNotes ++ [noteId] })
      else .error s

/-- The person-matching phase of linkNoteToEntities: when extraction produced
person names, Person.find with a case-sensitive name $in filter for the same
owner, then the save loop. -/
def linkNotePeoplePhase (env : Env) (userId noteId : String) (bag : EntityBag)
    (s : Store) : Except Store Store :=
  if bag.people.isEmpty then .ok s
  else
    if isValidObjectId userId then
      linkNotePeopleLoop env noteId
        (s.persons.filter fun p => p.userId == userId && bag.people.contains p.name) s
    else .error s

/-- The similarity phase of linkNoteToEntities: fetch the candidate window,
call findConnections on it, push every above-threshold candidate id onto the
current note and save once. -/
def linkNoteNotePhase (env : Env) (userId noteId content : String)
    (s : Store) : Except Store Store :=
  if isValidObjectId userId && isValidObjectId noteId then
    let window := queryWindowNotes s userId noteId
    if window.isEmpty then .ok s
    else
      match findConnections env content (window.map fun n => n.content) with
      | .error _ => .error s
      | .ok cs =>
        match findNoteById s noteId with
        | none => .ok s
        | some cur =>
          match collectLinkedEntities window cs cur.linkedEntities with
          | .error _ => .error s
          | .ok newLinked =>
            if env.saveFails noteId then .error s
            else .ok (updateNoteInStore s { cur with linkedEntities := newLinked })
  else .error s

/-- Body of DataLinkingService.linkNoteToEntities, before the surrounding
try/catch: extraction, then the person phase, then the similarity phase. -/
def linkNoteBody (env : Env) (userId noteId content : String) (s : Store) :
    Except Store Store :=
  match env.extractEntities content with
  | .error _ => .error s
  | .ok bag =>
    match linkNotePeoplePhase env userId noteId bag s with
    | .error s1 => .error s1
    | .ok s1 => linkNoteNotePhase env userId noteId content s1

/-- DataLinkingService.linkNoteToEntities: the body wrapped in the method's
single try/catch; the boolean records whether an error was caught and logged
by the catch block. -/
def linkNoteToEntities (env : Env) (userId noteId content : String) (s : Store) :
    Store × Bool :=
  settle (linkNoteBody env userId noteId content s)

/-- Character-list prefix test used to express substring containment. -/
def charsStartWith : List Char → List Char → Bool
  | [], _ => true
  | _ :: _, [] => false
  | a :: as, b :: bs => a == b && charsStartWith as bs

/-- Character-list contiguous-substring test. -/
def charsContain (needle : List Char) : List Char → Bool
  | [] => charsStartWith needle []
  | b :: bs => charsStartWith needle (b :: bs) || charsContain needle bs

/-- Substring test of JS String.prototype.includes: the needle occurs as a
contiguous substring of the haystack. -/
def substrOf (needle hay : String) : Bool :=
  charsContain needle.data hay.data

/-- The two append-if-absent for-loops of linkPersonToRelevantData: for each
item satisfying the match predicate, its id is pushed onto the in-memory
accumulator only when not already contained. -/
def appendIfAbsentLoop {α : Type} (pred : α → Bool) (key : α → String) :
    List α → List String → List String
  | [], acc => acc
  | x :: rest, acc =>
      if pred x then
        if acc.contains (key x) then appendIfAbsentLoop pred key rest acc
        else appendIfAbsentLoop pred key rest (acc ++ [key x])
      else appendIfAbsentLoop pred key rest acc

/-- Match predicate of the note loop of linkPersonToRelevantData:
note.content.toLowerCase().includes(personName.toLowerCase()). -/
def noteMentions (personName : String) (n : NoteRec) : Bool :=
  substrOf personName.toLower n.content.toLower

/-- Match predicate of the meeting loop of linkPersonToRelevantData:
meeting.title.toLowerCase().includes(personName.toLowerCase()). -/
def meetingMentions (personName : String) (m : MeetingRec) : Bool :=
  substrOf personName.toLower m.title.toLower

/-- Body of DataLinkingService.linkPersonToRelevantData before its try/catch:
fetch the first 100 notes and meetings of the owner, fetch the person, run
both append-if-absent loops in memory and save the person once. -/
def linkPersonBody (env : Env) (userId personId personName : String) (s : Store) :
    Except Store Store :=
  if isValidObjectId userId then
    let allNotes := (s.notes.filter fun n => n.userId == userId).take 100
    let allMeetings := (s.meetings.filter fun m => m.userId == userId).take 100
    if isValidObjectId personId then
      match findPersonById s personId with
      | none => .ok s
      | some p =>
        let newNotes := appendIfAbsentLoop (noteMentions personName) NoteRec.id
          allNotes p.linkedNotes
        let newMeetings := appendIfAbsentLoop (meetingMentions personName) MeetingRec.id
          allMeetings p.meetings
        if env.saveFails personId then .error s
        else .ok (updatePersonInStore s
          { p with linkedNotes := newNotes, meetings := newMeetings })
    else .error s
  else .error s

/-- DataLinkingService.linkPersonToRelevantData: body wrapped in the method's
try/catch; the boolean records whether an error was caught and logged. -/
def linkPersonToRelevantData (env : Env) (userId personId personName : String)
    (s : Store) : Store × Bool :=
  settle (linkPersonBody env userId personId personName s)

/-- Second half of linkMeetingToData: fetch the owner's first 50 notes, call
findConnections, push every above-threshold candidate id onto the in-memory
meeting document (the one fetched earlier, if any) and save it. -/
def linkMeetingPhase2 (env : Env) (userId meetingNotes meetingId : String)
    (mtg : Option MeetingRec) (s : Store) : Except Store Store :=
  if isValidObjectId userId then
    let allNotes := (s.notes.filter fun n => n.userId == userId).take 50
    if allNotes.isEmpty then .ok s
    else
      match findConnections env meetingNotes (allNotes.map fun n => n.content) with
      | .error _ => .error s
      | .ok cs =>
        match mtg with
        | none => .ok s
        | some m =>
          match collectLinkedEntities allNotes cs m.linkedNotes with
          | .error _ => .error s
          | .ok newLinked =>
            if env.saveFails meetingId then .error s
            else .ok (updateMeetingInStore s { m with linkedNotes := newLinked })
  else .error s

/-- Body of DataLinkingService.linkMeetingToData before its try/catch:
generate action items, overwrite the meeting's actionItems wholesale and
save, then the similarity phase over the in-memory meeting document. -/
def linkMeetingBody (env : Env) (userId meetingId meetingNotes : String)
    (s : Store) : Except Store Store :=
  match env.generateActionItemsResult meetingNotes with
  | .error _ => .error s
  | .ok items =>
    if isValidObjectId meetingId then
      match findMeetingById s meetingId with
      | none => linkMeetingPhase2 env userId meetingNotes meetingId none s
      | some m =>
        if env.saveFails meetingId then .error s
        else
          let m1 := { m with actionItems := items }
          linkMeetingPhase2 env userId meetingNotes meetingId (some m1)
            (updateMeetingInStore s m1)
    else .error s

/-- DataLinkingService.linkMeetingToData: body wrapped in the method's
try/catch; the boolean records whether an error was caught and logged. -/
def linkMeetingToData (env : Env) (userId meetingId meetingNotes : String)
    (s : Store) : Store × Bool :=
  settle (linkMeetingBody env userId meetingId meetingNotes s)

/-- Three days in milliseconds: the fixed dueDate offset obtained by
threeDaysFromNow.setDate(getDate() + 3). -/
def threeDaysMs : Nat := 259200000

/-- The Reminder document built for one action item by
createRemindersFromActionItems. -/
def mkReminder (userId title : String) (due : Nat) (meetingId : String) : ReminderRec :=
  { userId := userId, title := title, dueDate := due, type := "task",
    priority := "high", linkedEntity := meetingId, linkedEntityType := "Meeting" }

/-- The reminder creation loop: each iteration constructs the Reminder (the
ObjectId cast of userId throws on an invalid id before anything is saved)
and saves it; a save rejection throws with earlier reminders persisted. -/
def reminderLoop (env : Env) (userId meetingId : String) (due : Nat) :
    List String → Nat → Store → Except Store Store
  | [], _, s => .ok s
  | t :: rest, idx, s =>
      if isValidObjectId userId then
        if env.reminderSaveFails idx then .error s
        else reminderLoop env userId meetingId due rest (idx + 1)
          { s with reminders := s.reminders ++ [mkReminder userId t due meetingId] }
      else .error s

/-- Body of DataLinkingService.createRemindersFromActionItems before its
try/catch: fetch the meeting, return early when absent or when its
actionItems list is empty, else create one reminder per action item with a
shared dueDate of now plus three days. -/
def createRemindersBody (env : Env) (userId meetingId : String) (now : Nat)
    (s : Store) : Except Store Store :=
  if isValidObjectId meetingId then
    match findMeetingById s meetingId with
    | none => .ok s
    | some m =>
      if m.actionItems.isEmpty then .ok s
      else reminderLoop env userId meetingId (now + threeDaysMs) m.actionItems 0 s
  else .error s

/-- DataLinkingService.createRemindersFromActionItems: body wrapped in the
method's try/catch; the boolean records whether an error was caught and
logged. -/
def createRemindersFromActionItems (env : Env) (userId meetingId : String)
    (now : Nat) (s : Store) : Store × Bool :=
  settle (createRemindersBody env userId meetingId now s)

/-- One note line of the compiled daily digest. -/
def noteLine (n : NoteRec) : String :=
  "- " ++ n.title ++ ": " ++ n.content

/-- One meeting line of the compiled daily digest; fmt is the date-fns
HH:mm formatter applied to the meeting date, and the template interpolation
of meeting.notes or-else meeting.description follows JS truthiness (an empty
or missing notes string falls through to description, a missing description
renders as the string undefined). -/
def meetingLine (fmt : Nat → String) (m : MeetingRec) : String :=
  "- " ++ m.title ++ " at " ++ fmt m.date ++ ": " ++
    (match m.notes with
     | some str => if str == "" then m.description.getD "undefined" else str
     | none => m.description.getD "undefined")

/-- The compiled outline of SummaryService.generateDailySummary: a notes
section and a meetings section, each present only when nonempty. -/
def compileDaily (fmt : Nat → String) (notes : List NoteRec)
    (meetings : List MeetingRec) : String :=
  (if notes.isEmpty then ""
   else "## Notes from today\n" ++ String.intercalate "\n" (notes.map noteLine) ++ "\n\n")
  ++
  (if meetings.isEmpty then ""
   else "## Meetings\n" ++ String.intercalate "\n" (meetings.map (meetingLine fmt)) ++ "\n\n")

/-- The day window filter on notes used by generateDailySummary. -/
def dailyNotes (s : Store) (userId : String) (dayStart dayEnd : Nat) : List NoteRec :=
  s.notes.filter fun n =>
    n.userId == userId && decide (dayStart ≤ n.createdAt) && decide (n.createdAt ≤ dayEnd)

/-- The day window filter on meetings used by generateDailySummary. -/
def dailyMeetings (s : Store) (userId : String) (dayStart dayEnd : Nat) : List MeetingRec :=
  s.meetings.filter fun m =>
    m.userId == userId && decide (dayStart ≤ m.date) && decide (m.date ≤ dayEnd)

/-- SummaryService.generateDailySummary: fetch the day window, compile the
outline; an empty outline returns the fixed sentinel without any capability
call, otherwise the outline is forwarded to the summarization capability and
its output returned.  The natural number counts summarization calls made;
this method rethrows caught errors, hence the Except result. -/
def generateDailySummary (env : Env) (fmt : Nat → String) (userId : String)
    (dayStart dayEnd : Nat) (s : Store) : Except Unit (String × Nat) :=
  if isValidObjectId userId then
    let compiled := compileDaily fmt (dailyNotes s userId dayStart dayEnd)
      (dailyMeetings s userId dayStart dayEnd)
    if compiled == "" then .ok ("No activity recorded for today.", 0)
    else
      match env.generateDailySummaryResult compiled with
      | .ok out => .ok (out, 1)
      | .error _ => .error ()
  else .error ()

/-- Sample 24-hex owner id used in concrete instances. -/
def sampleUserId : String := "aaaaaaaaaaaaaaaaaaaaaaaa"

/-- Sample 24-hex note id. -/
def sampleNoteId : String := "bbbbbbbbbbbbbbbbbbbbbbbb"

/-- Sample 24-hex person id. -/
def samplePersonId : String := "cccccccccccccccccccccccc"

/-- Sample 24-hex id of a candidate note. -/
def candidateNoteId : String := "dddddddddddddddddddddddd"

/-- Sample 24-hex meeting id. -/
def sampleMeetingId : String := "eeeeeeeeeeeeeeeeeeeeeeee"

/-- Benign environment: extraction finds nothing, similarity returns an empty
list, action items empty, summarization succeeds, all saves succeed. -/
def baseEnv : Env :=
  { extractEntities := fun _ => .ok ⟨[], [], [], [], []⟩,
    findConnectionsResult := fun _ _ => .ok [],
    generateActionItemsResult := fun _ => .ok [],
    generateDailySummaryResult := fun _ => .ok "ok",
    saveFails := fun _ => false,
    reminderSaveFails := fun _ => false }

/-- Environment whose extraction always reports the person name John. -/
def envExtractJohn : Env :=
  { baseEnv with
    extractEntities := fun _ => .ok ⟨["John"], [], [], [], []⟩ }

/-- Environment whose extraction call rejects while the similarity capability
would have reported a strong (0.9) connection to candidate 0. -/
def envExtractFails : Env :=
  { baseEnv with
    extractEntities := fun _ => .error (),
    findConnectionsResult := fun _ _ => .ok [⟨0, 9/10, "strong"⟩] }

/-- Environment whose similarity capability reports one connection above the
threshold (0.9) and one at the threshold (0.6). -/
def envConnMixed : Env :=
  { baseEnv with
    findConnectionsResult := fun _ _ => .ok [⟨0, 9/10, "strong"⟩, ⟨1, 3/5, "at threshold"⟩] }

/-- Environment whose similarity capability returns a parsed list that is not
in descending score order. -/
def envUnsorted : Env :=
  { baseEnv with
    findConnectionsResult := fun _ _ => .ok [⟨0, 1/5, "weak"⟩, ⟨1, 9/10, "strong"⟩] }

/-- Store holding one person named John with no links. -/
def storePersonJohn : Store :=
  { persons := [⟨samplePersonId, sampleUserId, "John", [], []⟩],
    notes := [], meetings := [], reminders := [] }

/-- Store holding one person whose stored name is the lowercase john. -/
def storePersonLowercase : Store :=
  { persons := [⟨samplePersonId, sampleUserId, "john", [], []⟩],
    notes := [], meetings := [], reminders := [] }

/-- Store holding the freshly created note and two sibling candidate notes of
the same owner. -/
def storeThreeNotes : Store :=
  { persons := [],
    notes := [⟨sampleNoteId, sampleUserId, "new", "new note", [], 0⟩,
      ⟨candidateNoteId, sampleUserId, "old", "old note", [], 0⟩,
      ⟨samplePersonId, sampleUserId, "older", "older note", [], 0⟩],
    meetings := [], reminders := [] }

/-- Store with a person, a note mentioning the person and a meeting whose
title mentions the person. -/
def storePersonAndData : Store :=
  { persons := [⟨samplePersonId, sampleUserId, "John", [], []⟩],
    notes := [⟨sampleNoteId, sampleUserId, "n", "met john today", [], 0⟩],
    meetings := [⟨sampleMeetingId, sampleUserId, "John sync", none, 5, none, [], []⟩],
    reminders := [] }

/-- Store holding one meeting of the owner with two action items, dated
inside the day window 0..10. -/
def storeMeetingItems : Store :=
  { persons := [], notes := [],
    meetings := [⟨sampleMeetingId, sampleUserId, "m", none, 5, none,
      ["send proposal", "review budget"], []⟩],
    reminders := [] }

/-- Completely empty store. -/
def storeEmpty : Store :=
  { persons := [], notes := [], meetings := [], reminders := [] }

/-- Bool-level membership for List.contains over a lawful BEq. -/
theorem contains_true_iff {α : Type} [BEq α] [LawfulBEq α] (l : List α) (a : α) :
    l.contains a = true ↔ a ∈ l := by
  simp [List.contains, List.elem_iff]

/-- Replacing by key keeps the key image of the list pointwise. -/
theorem map_key_of_update {α β : Type} (key : α → β) [BEq β] [LawfulBEq β] (new : α)
    (l : List α) :
    (l.map fun q => if key q == key new then new else q).map key = l.map key := by
  induction l with
  | nil => rfl
  | cons a t ih =>
      simp only [List.map_cons, ih, List.cons.injEq, and_true]
      by_cases h : key a == key new
      · simp only [h, if_pos]
        exact (beq_iff_eq.mp h).symm
      · simp only [h]
        simp

/-- Looking up the updated key after a keyed replacement returns the new
record whenever the key was present. -/
theorem find?_update_self {α β : Type} (key : α → β) [BEq β] [LawfulBEq β] (new : α)
    (l : List α) :
    (l.map fun q => if key q == key new then new else q).find? (fun q => key q == key new)
      = (l.find? fun q => key q == key new).map fun _ => new := by
  induction l with
  | nil => rfl
  | cons a t ih =>
      cases h : (key a == key new) with
      | true =>
          simp only [List.map_cons, h, if_true]
          rw [List.find?_cons_of_pos (p := fun q => key q == key new) _ (by simp),
            List.find?_cons_of_pos (p := fun q => key q == key new) _ h]
          rfl
      | false =>
          simp only [List.map_cons, h, Bool.false_eq_true, if_false]
          rw [List.find?_cons_of_neg _ (by simp [h]), List.find?_cons_of_neg _ (by simp [h])]
          exact ih

/-- Looking up a different key is unaffected by a keyed replacement. -/
theorem find?_update_other {α β : Type} (key : α → β) [BEq β] [LawfulBEq β] (new : α)
    (l : List α) (k : β) (hne : k ≠ key new) :
    (l.map fun q => if key q == key new then new else q).find? (fun q => key q == k)
      = l.find? fun q => key q == k := by
  induction l with
  | nil => rfl
  | cons a t ih =>
      cases h : (key a == key new) with
      | true =>
          have hk : (key new == k) = false := beq_eq_false_iff_ne.mpr fun he => hne he.symm
          have ha : (key a == k) = false := by rw [beq_iff_eq.mp h]; exact hk
          simp only [List.map_cons, h, if_true]
          rw [List.find?_cons_of_neg _ (by simp [hk]), List.find?_cons_of_neg _ (by simp [ha])]
          exact ih
      | false =>
          simp only [List.map_cons, h, Bool.false_eq_true, if_false]
          cases hk : (key a == k) with
          | true =>
              rw [List.find?_cons_of_pos (p := fun q => key q == k) _ hk,
                List.find?_cons_of_pos (p := fun q => key q == k) _ hk]
          | false =>
              rw [List.find?_cons_of_neg _ (by simp [hk]), List.find?_cons_of_neg _ (by simp [hk])]
              exact ih

/-- With pairwise distinct keys, find? by key returns the member itself. -/
theorem find?_of_mem_nodup_keys {α β : Type} (key : α → β) [BEq β] [LawfulBEq β]
    {l : List α} {p : α} (hnd : (l.map key).Nodup) (hp : p ∈ l) :
    l.find? (fun q => key q == key p) = some p := by
  induction l with
  | nil => cases hp
  | cons a t ih =>
      rw [List.map_cons] at hnd
      rcases List.mem_cons.mp hp with h | h
      · subst h
        exact List.find?_cons_of_pos _ (by simp)
      · have hka : (key a == key p) = false := by
          refine beq_eq_false_iff_ne.mpr fun he => ?_
          exact (List.nodup_cons.mp hnd).1 (he ▸ List.mem_map_of_mem key h)
        rw [List.find?_cons_of_neg _ (by simp [hka])]
        exact ih (List.nodup_cons.mp hnd).2 h

/-- Membership in the accumulator is preserved by the append-if-absent loop. -/
theorem appendIfAbsentLoop_mem {α : Type} (pred : α → Bool) (key : α → String)
    (xs : List α) (acc : List String) (a : String) (ha : a ∈ acc) :
    a ∈ appendIfAbsentLoop pred key xs acc := by
  induction xs generalizing acc with
  | nil => exact ha
  | cons x t ih =>
      rw [appendIfAbsentLoop]
      by_cases hp : pred x
      · simp only [hp, if_true]
        by_cases hc : acc.contains (key x)
        · simp only [hc, if_true]
          exact ih acc ha
        · simp only [hc, if_false]
          exact ih (acc ++ [key x]) (List.mem_append_left _ ha)
      · simp only [hp, if_false]
        exact ih acc ha

/-- After the append-if-absent loop, every matching item's key is present. -/
theorem appendIfAbsentLoop_complete {α : Type} (pred : α → Bool) (key : α → String)
    (xs : List α) (acc : List String) (x : α) (hx : x ∈ xs) (hp : pred x = true) :
    key x ∈ appendIfAbsentLoop pred key xs acc := by
  induction xs generalizing acc with
  | nil => cases hx
  | cons y t ih =>
      rw [appendIfAbsentLoop]
      rcases List.mem_cons.mp hx with h | h
      · subst h
        simp only [hp, if_true]
        by_cases hc : acc.contains (key x)
        · exact by
            simp only [hc, if_true]
            exact appendIfAbsentLoop_mem pred key t acc _ ((contains_true_iff acc (key x)).mp hc)
        · simp only [hc, if_false]
          exact appendIfAbsentLoop_mem pred key t _ _ (List.mem_append_right _ (List.mem_singleton.mpr rfl))
      · by_cases hpy : pred y
        · simp only [hpy, if_true]
          by_cases hc : acc.contains (key y)
          · simp only [hc, if_true]; exact ih acc h
          · simp only [hc, if_false]; exact ih (acc ++ [key y]) h
        · simp only [hpy, if_false]; exact ih acc h

/-- The append-if-absent loop is the identity when every matching key is
already present. -/
theorem appendIfAbsentLoop_stable {α : Type} (pred : α → Bool) (key : α → String)
    (xs : List α) (acc : List String) (h : ∀ x ∈ xs, pred x = true → key x ∈ acc) :
    appendIfAbsentLoop pred key xs acc = acc := by
  induction xs with
  | nil => rfl
  | cons y t ih =>
      rw [appendIfAbsentLoop]
      by_cases hpy : pred y
      · have hc : acc.contains (key y) = true :=
          (contains_true_iff acc (key y)).mpr (h y (List.mem_cons_self y t) hpy)
        simp only [hpy, if_true, hc]
        exact ih fun x hx hp => h x (List.mem_cons_of_mem y hx) hp
      · simp only [hpy, if_false]
        exact ih fun x hx hp => h x (List.mem_cons_of_mem y hx) hp

/-- The append-if-absent loop is idempotent on its accumulator. -/
theorem appendIfAbsentLoop_idem {α : Type} (pred : α → Bool) (key : α → String)
    (xs : List α) (acc : List String) :
    appendIfAbsentLoop pred key xs (appendIfAbsentLoop pred key xs acc)
      = appendIfAbsentLoop pred key xs acc :=
  appendIfAbsentLoop_stable pred key xs _ fun x hx hp =>
    appendIfAbsentLoop_complete pred key xs acc x hx hp

/-- The append-if-absent loop preserves freedom from duplicates. -/
theorem appendIfAbsentLoop_nodup {α : Type} (pred : α → Bool) (key : α → String)
    (xs : List α) (acc : List String) (h : acc.Nodup) :
    (appendIfAbsentLoop pred key xs acc).Nodup := by
  induction xs generalizing acc with
  | nil => exact h
  | cons y t ih =>
      rw [appendIfAbsentLoop]
      by_cases hpy : pred y
      · by_cases hc : acc.contains (key y)
        · simp only [hpy, if_true, hc]
          exact ih acc h
        · simp only [hpy, if_true, hc, if_false]
          refine ih (acc ++ [key y]) (List.Nodup.append h (List.nodup_singleton _) ?_)
          intro a ha hb
          rw [List.mem_singleton] at hb
          subst hb
          exact hc ((contains_true_iff acc (key y)).mpr ha)
      · simp only [hpy, if_false]
        exact ih acc h

/-- With a valid note id and no save failures, the person loop of
linkNoteToEntities completes and equals the fold of unconditional appends. -/
theorem linkNotePeopleLoop_ok (env : Env) (nid : String)
    (hn : isValidObjectId nid = true) (hsv : ∀ id, env.saveFails id = false)
    (ps : List PersonRec) (s : Store) :
    linkNotePeopleLoop env nid ps s = .ok (ps.foldl
      (fun st p => updatePersonInStore st { p with linkedNotes := p.linkedNotes ++ [nid] })
      s) := by
  induction ps generalizing s with
  | nil => rfl
  | cons p t ih =>
      rw [linkNotePeopleLoop, List.foldl_cons]
      simp only [hn, if_true, hsv p.id, Bool.false_eq_true, if_false]
      exact ih _

/-- The person-loop fold touches only the persons collection. -/
theorem peopleFold_other_collections (nid : String) (ps : List PersonRec) (s : Store) :
    (ps.foldl
      (fun st p => updatePersonInStore st { p with linkedNotes := p.linkedNotes ++ [nid] })
      s).notes = s.notes ∧
    (ps.foldl
      (fun st p => updatePersonInStore st { p with linkedNotes := p.linkedNotes ++ [nid] })
      s).meetings = s.meetings ∧
    (ps.foldl
      (fun st p => updatePersonInStore st { p with linkedNotes := p.linkedNotes ++ [nid] })
      s).reminders = s.reminders := by
  induction ps generalizing s with
  | nil => exact ⟨rfl, rfl, rfl⟩
  | cons p t ih =>
      rw [List.foldl_cons]
      exact ih _

/-- The person-loop fold keeps the stored person ids pointwise. -/
theorem peopleFold_ids (nid : String) (ps : List PersonRec) (s : Store) :
    (ps.foldl
      (fun st p => updatePersonInStore st { p with linkedNotes := p.linkedNotes ++ [nid] })
      s).persons.map (fun r => r.id) = s.persons.map fun r => r.id := by
  induction ps generalizing s with
  | nil => rfl
  | cons p t ih =>
      rw [List.foldl_cons, ih]
      exact map_key_of_update (fun r => r.id) _ s.persons

/-- Persons whose id is absent from the processed list are untouched by the
person-loop fold. -/
theorem peopleFold_find_untouched (nid : String) (ps : List PersonRec) (s : Store)
    (k : String) (h : ∀ q ∈ ps, q.id ≠ k) :
    (ps.foldl
      (fun st p => updatePersonInStore st { p with linkedNotes := p.linkedNotes ++ [nid] })
      s).persons.find? (fun r => r.id == k)
      = s.persons.find? fun r => r.id == k := by
  induction ps generalizing s with
  | nil => rfl
  | cons p t ih =>
      rw [List.foldl_cons]
      rw [ih _ fun q hq => h q (List.mem_cons_of_mem p hq)]
      simp only [updatePersonInStore]
      exact find?_update_other (fun r => r.id)
        { p with linkedNotes := p.linkedNotes ++ [nid] } s.persons k
        fun he => h p (List.mem_cons_self p t) he.symm

/-- A person processed by the person-loop fold ends with the note id appended
once to the snapshot of its linkedNotes, independent of processing order. -/
theorem peopleFold_find_processed (nid : String) (ps : List PersonRec) (s : Store)
    (p : PersonRec) (hp : p ∈ ps) (hnd : (ps.map fun r => r.id).Nodup)
    (hex : ∃ r ∈ s.persons, r.id = p.id) :
    (ps.foldl
      (fun st q => updatePersonInStore st { q with linkedNotes := q.linkedNotes ++ [nid] })
      s).persons.find? (fun r => r.id == p.id)
      = some { p with linkedNotes := p.linkedNotes ++ [nid] } := by
  induction ps generalizing s with
  | nil => cases hp
  | cons q t ih =>
      rw [List.map_cons, List.nodup_cons] at hnd
      rw [List.foldl_cons]
      rcases List.mem_cons.mp hp with h | h
      · subst h
        have htail : ∀ r ∈ t, r.id ≠ p.id := by
          intro r hr he
          exact hnd.1 (he ▸ List.mem_map_of_mem (fun r => r.id) hr)
        rw [peopleFold_find_untouched nid t _ p.id htail]
        simp only [updatePersonInStore]
        have hdone := find?_update_self (fun r => r.id)
          { p with linkedNotes := p.linkedNotes ++ [nid] } s.persons
        rw [hdone]
        rcases hex with ⟨r, hr, hrid⟩
        have hsome : ((s.persons.find? fun q => q.id == p.id)).isSome := by
          rw [List.find?_isSome]
          exact ⟨r, hr, by simp [hrid]⟩
        rcases Option.isSome_iff_exists.mp hsome with ⟨r0, hr0⟩
        rw [hr0]
        rfl
      · refine ih _ h hnd.2 ?_
        rcases hex with ⟨r, hr, hrid⟩
        refine ⟨if r.id == q.id then { q with linkedNotes := q.linkedNotes ++ [nid] } else r,
          List.mem_map_of_mem _ hr, ?_⟩
        by_cases hc : r.id == q.id
        · simp only [hc, if_true]
          exact (beq_iff_eq.mp hc) ▸ hrid
        · simp only [hc, if_false]
          exact hrid

/-- With valid ids and no save failures, the person-matching phase of
linkNoteToEntities completes and equals the fold of unconditional appends
over the case-sensitively matched persons. -/
theorem linkNotePeoplePhase_ok (env : Env) (uid nid : String) (bag : EntityBag)
    (s : Store) (hu : isValidObjectId uid = true) (hn : isValidObjectId nid = true)
    (hsv : ∀ id, env.saveFails id = false) :
    linkNotePeoplePhase env uid nid bag s = .ok
      ((s.persons.filter fun p => p.userId == uid && bag.people.contains p.name).foldl
        (fun st p => updatePersonInStore st { p with linkedNotes := p.linkedNotes ++ [nid] })
        s) := by
  rw [linkNotePeoplePhase]
  by_cases he : bag.people.isEmpty
  · have hf : (s.persons.filter fun p => p.userId == uid && bag.people.contains p.name)
        = [] := by
      rw [List.isEmpty_iff.mp he]
      simp
    rw [hf]
    simp [he]
  · simp only [he, Bool.false_eq_true, if_false, hu, if_true]
    exact linkNotePeopleLoop_ok env nid hn hsv _ s

/-- When every above-threshold index is in range, the connection loop
completes and appends exactly the above-threshold candidates in given
order. -/
theorem collectLinkedEntities_ok (window : List NoteRec) (cs : List Connection)
    (acc : List String)
    (hidx : ∀ c ∈ cs, (0.6 : ℚ) < c.score → c.index < window.length) :
    collectLinkedEntities window cs acc = .ok (acc ++
      (cs.filter fun c => decide ((0.6 : ℚ) < c.score)).map
        fun c => (window.getD c.index defaultNote).id) := by
  induction cs generalizing acc with
  | nil => simp [collectLinkedEntities]
  | cons c rest ih =>
      rw [collectLinkedEntities]
      by_cases hs : (0.6 : ℚ) < c.score
      · have hlt := hidx c (List.mem_cons_self c rest) hs
        rw [List.getElem?_eq_getElem hlt]
        simp only [hs, if_true]
        rw [ih _ fun d hd hds => hidx d (List.mem_cons_of_mem c hd) hds]
        rw [List.filter_cons_of_pos (by simp [hs]), List.map_cons]
        rw [List.getD_eq_getElem window defaultNote hlt]
        simp
      · simp only [hs, if_false]
        rw [ih _ fun d hd hds => hidx d (List.mem_cons_of_mem c hd) hds]
        rw [List.filter_cons_of_neg (by simp [hs])]

/-- The similarity phase of linkNoteToEntities never touches the persons,
meetings or reminders collections, whether it completes or throws. -/
theorem linkNoteNotePhase_persons (env : Env) (uid nid content : String) (s : Store) :
    (settle (linkNoteNotePhase env uid nid content s)).1.persons = s.persons ∧
    (settle (linkNoteNotePhase env uid nid content s)).1.meetings = s.meetings ∧
    (settle (linkNoteNotePhase env uid nid content s)).1.reminders = s.reminders := by
  rw [linkNoteNotePhase]
  by_cases hv : (isValidObjectId uid && isValidObjectId nid) = true
  · simp only [hv, if_true]
    by_cases hw : (queryWindowNotes s uid nid).isEmpty
    · simp [hw, settle]
    · simp only [hw, Bool.false_eq_true, if_false]
      cases hc : findConnections env content ((queryWindowNotes s uid nid).map fun n => n.content) with
      | error e => simp [settle]
      | ok cs =>
          cases hcur : findNoteById s nid with
          | none => simp [settle]
          | some cur =>
              cases hcoll : collectLinkedEntities (queryWindowNotes s uid nid) cs
                  cur.linkedEntities with
              | error e => simp [hcoll, settle]
              | ok newLinked =>
                  by_cases hsf : env.saveFails nid
                  · simp [hcoll, hsf, settle]
                  · simp [hcoll, hsf, settle, updateNoteInStore]
  · simp only [hv, Bool.not_eq_true] at hv ⊢
    simp [hv, settle]

/-- Under valid ids, a successful similarity call over a nonempty window, a
present current note, in-range above-threshold indices and no save failure,
the similarity phase saves the note with exactly the above-threshold
candidate ids appended. -/
theorem linkNoteNotePhase_ok (env : Env) (uid nid content : String) (s : Store)
    (cs : List Connection) (cur : NoteRec)
    (hu : isValidObjectId uid = true) (hn : isValidObjectId nid = true)
    (hsv : ∀ id, env.saveFails id = false)
    (hw : (queryWindowNotes s uid nid).isEmpty = false)
    (hc : env.findConnectionsResult content
      ((queryWindowNotes s uid nid).map fun n => n.content) = .ok cs)
    (hcur : findNoteById s nid = some cur)
    (hidx : ∀ c ∈ cs, (0.6 : ℚ) < c.score →
      c.index < (queryWindowNotes s uid nid).length) :
    linkNoteNotePhase env uid nid content s = .ok (updateNoteInStore s
      { cur with linkedEntities := cur.linkedEntities ++
        ((cs.filter fun c => decide ((0.6 : ℚ) < c.score)).map
          fun c => ((queryWindowNotes s uid nid).getD c.index defaultNote).id) }) := by
  rw [linkNoteNotePhase]
  simp only [hu, hn, Bool.and_self, if_true, hw, Bool.false_eq_true, if_false,
    show findConnections env content ((queryWindowNotes s uid nid).map fun n => n.content)
      = .ok cs from hc, hcur,
    collectLinkedEntities_ok (queryWindowNotes s uid nid) cs cur.linkedEntities hidx,
    hsv nid]

/-- Full characterization of the persons collection after linkNoteToEntities
under successful extraction, valid ids and reliable saves: ids are unchanged
pointwise, every case-sensitively matched person gains the note id by
unconditional append, and every other person is untouched. -/
theorem linkNote_persons_spec (env : Env) (uid nid content : String) (s : Store)
    (bag : EntityBag) (hx : env.extractEntities content = .ok bag)
    (hu : isValidObjectId uid = true) (hn : isValidObjectId nid = true)
    (hsv : ∀ id, env.saveFails id = false)
    (hnd : (s.persons.map fun r => r.id).Nodup) :
    ((linkNoteToEntities env uid nid content s).1.persons.map fun r => r.id)
        = (s.persons.map fun r => r.id) ∧
    ∀ p ∈ s.persons,
      (p.userId = uid ∧ p.name ∈ bag.people →
        (linkNoteToEntities env uid nid content s).1.persons.find? (fun r => r.id == p.id)
          = some { p with linkedNotes := p.linkedNotes ++ [nid] }) ∧
      (¬(p.userId = uid ∧ p.name ∈ bag.people) →
        (linkNoteToEntities env uid nid content s).1.persons.find? (fun r => r.id == p.id)
          = some p) := by
  have hpred : ∀ p : PersonRec,
      ((p.userId == uid && bag.people.contains p.name) = true)
        ↔ (p.userId = uid ∧ p.name ∈ bag.people) := by
    intro p
    rw [Bool.and_eq_true, beq_iff_eq, contains_true_iff]
  have hbody : (linkNoteToEntities env uid nid content s).1.persons =
      ((s.persons.filter fun p => p.userId == uid && bag.people.contains p.name).foldl
        (fun st p => updatePersonInStore st { p with linkedNotes := p.linkedNotes ++ [nid] })
        s).persons := by
    rw [linkNoteToEntities, linkNoteBody]
    simp only [hx, linkNotePeoplePhase_ok env uid nid bag s hu hn hsv]
    exact (linkNoteNotePhase_persons env uid nid content _).1
  have hfnd : ((s.persons.filter fun p =>
      p.userId == uid && bag.people.contains p.name).map fun r => r.id).Nodup :=
    List.Nodup.sublist (List.Sublist.map _ (List.filter_sublist s.persons)) hnd
  refine ⟨?_, ?_⟩
  · rw [hbody]
    exact peopleFold_ids nid _ s
  · intro p hp
    constructor
    · intro hmatch
      rw [hbody]
      refine peopleFold_find_processed nid _ s p ?_ hfnd ⟨p, hp, rfl⟩
      rw [List.mem_filter]
      exact ⟨hp, (hpred p).mpr hmatch⟩
    · intro hmiss
      rw [hbody]
      rw [peopleFold_find_untouched nid _ s p.id ?_]
      · exact find?_of_mem_nodup_keys (fun r => r.id) hnd hp
      · intro q hq he
        rcases List.mem_filter.mp hq with ⟨hqs, hqpred⟩
        have : q = p := List.inj_on_of_nodup_map hnd hqs hp he
        subst this
        exact hmiss ((hpred q).mp hqpred)

/-- The candidate window depends only on the notes collection. -/
theorem queryWindowNotes_congr (s s1 : Store) (h : s1.notes = s.notes)
    (uid ex : String) : queryWindowNotes s1 uid ex = queryWindowNotes s uid ex := by
  rw [queryWindowNotes, queryWindowNotes, h]

/-- Note lookup depends only on the notes collection. -/
theorem findNoteById_congr (s s1 : Store) (h : s1.notes = s.notes) (id : String) :
    findNoteById s1 id = findNoteById s id := by
  rw [findNoteById, findNoteById, h]

/-- C4: in linkNoteToEntities, for every connection returned by the
similarity capability over the candidate window (the note itself excluded),
the candidate id is appended to the new note's linkedEntities exactly when
its score is strictly greater than 0.6; a connection with score at most 0.6
contributes no link. -/
theorem linkNote_threshold (env : Env) (uid nid content : String) (s : Store)
    (bag : EntityBag) (cs : List Connection) (cur : NoteRec)
    (hx : env.extractEntities content = .ok bag)
    (hu : isValidObjectId uid = true) (hn : isValidObjectId nid = true)
    (hsv : ∀ id, env.saveFails id = false)
    (hw : (queryWindowNotes s uid nid).isEmpty = false)
    (hc : env.findConnectionsResult content
      ((queryWindowNotes s uid nid).map fun n => n.content) = .ok cs)
    (hcur : findNoteById s nid = some cur)
    (hidx : ∀ c ∈ cs, (0.6 : ℚ) < c.score →
      c.index < (queryWindowNotes s uid nid).length) :
    ∃ fin : NoteRec,
      findNoteById (linkNoteToEntities env uid nid content s).1 nid = some fin ∧
      (linkNoteToEntities env uid nid content s).2 = false ∧
      fin.linkedEntities = cur.linkedEntities ++
        ((cs.filter fun c => decide ((0.6 : ℚ) < c.score)).map
          fun c => ((queryWindowNotes s uid nid).getD c.index defaultNote).id) ∧
      (∀ c ∈ cs, (0.6 : ℚ) < c.score →
        ((queryWindowNotes s uid nid).getD c.index defaultNote).id ∈ fin.linkedEntities) ∧
      (∀ c ∈ cs, c.score ≤ (0.6 : ℚ) →
        ((queryWindowNotes s uid nid).getD c.index defaultNote).id ∉ cur.linkedEntities →
        (∀ d ∈ cs, (0.6 : ℚ) < d.score →
          ((queryWindowNotes s uid nid).getD d.index defaultNote).id ≠
            ((queryWindowNotes s uid nid).getD c.index defaultNote).id) →
        ((queryWindowNotes s uid nid).getD c.index defaultNote).id ∉ fin.linkedEntities) := by
  have hid : cur.id = nid := by
    rw [findNoteById] at hcur
    have := List.find?_some (p := fun n : NoteRec => n.id == nid) (l := s.notes) hcur
    exact beq_iff_eq.mp this
  subst hid
  set nn : NoteRec := { cur with linkedEntities := cur.linkedEntities ++
      ((cs.filter fun c => decide ((0.6 : ℚ) < c.score)).map
        fun c => ((queryWindowNotes s uid cur.id).getD c.index defaultNote).id) } with hnn
  have hnotes : ((s.persons.filter fun p =>
      p.userId == uid && bag.people.contains p.name).foldl
        (fun st p =>
          updatePersonInStore st { p with linkedNotes := p.linkedNotes ++ [cur.id] })
        s).notes = s.notes :=
    (peopleFold_other_collections cur.id _ s).1
  have hrun : linkNoteToEntities env uid cur.id content s =
      (updateNoteInStore
        ((s.persons.filter fun p => p.userId == uid && bag.people.contains p.name).foldl
          (fun st p =>
            updatePersonInStore st { p with linkedNotes := p.linkedNotes ++ [cur.id] }) s)
        nn, false) := by
    rw [linkNoteToEntities, linkNoteBody]
    simp only [hx, linkNotePeoplePhase_ok env uid cur.id bag s hu hn hsv]
    have hwin := queryWindowNotes_congr s _ hnotes uid cur.id
    rw [linkNoteNotePhase_ok env uid cur.id content _ cs cur hu hn hsv
      (by rw [hwin]; exact hw)
      (by rw [hwin]; exact hc)
      (by rw [findNoteById_congr s _ hnotes]; exact hcur)
      (by rw [hwin]; exact fun c hcm hcs => hidx c hcm hcs)]
    rw [hwin]
    rfl
  refine ⟨nn, ?_, ?_, rfl, ?_, ?_⟩
  · rw [hrun]
    have h1 := find?_update_self (fun n : NoteRec => n.id) nn
      ((s.persons.filter fun p => p.userId == uid && bag.people.contains p.name).foldl
        (fun st p =>
          updatePersonInStore st { p with linkedNotes := p.linkedNotes ++ [cur.id] }) s).notes
    have h2 : (((s.persons.filter fun p => p.userId == uid && bag.people.contains p.name).foldl
        (fun st p =>
          updatePersonInStore st { p with linkedNotes := p.linkedNotes ++ [cur.id] }) s).notes.find?
          fun q => q.id == nn.id) = some cur := by
      rw [hnotes]
      exact hcur
    exact h1.trans (by rw [h2]; rfl)
  · rw [hrun]
  · intro c hcm hcs
    refine List.mem_append_right _ ?_
    exact List.mem_map.mpr ⟨c, List.mem_filter.mpr ⟨hcm, by simp [hcs]⟩, rfl⟩
  · intro c hcm hcs hnotin hdist hmem
    rcases List.mem_append.mp hmem with hL | hR
    · exact hnotin hL
    · rcases List.mem_map.mp hR with ⟨d, hdf, hde⟩
      rcases List.mem_filter.mp hdf with ⟨hdm, hds⟩
      exact hdist d hdm (by simpa using hds) hde

/-- Witness for C4: a concrete run with one 0.9-scored and one 0.6-scored
candidate links exactly the 0.9-scored candidate note. -/
theorem linkNote_threshold_witness :
    (∀ id, envConnMixed.saveFails id = false) ∧
    ∃ fin : NoteRec,
      findNoteById (linkNoteToEntities envConnMixed sampleUserId sampleNoteId "t"
        storeThreeNotes).1 sampleNoteId = some fin ∧
      fin.linkedEntities = [candidateNoteId] := by
  have hidx : ∀ c ∈ ([⟨0, 9/10, "strong"⟩, ⟨1, 3/5, "at threshold"⟩] : List Connection),
      (0.6 : ℚ) < c.score →
      c.index < (queryWindowNotes storeThreeNotes sampleUserId sampleNoteId).length := by
    intro c hc _
    rcases List.mem_cons.mp hc with h | h
    · subst h
      decide
    · rcases List.mem_cons.mp h with h2 | h2
      · subst h2
        decide
      · cases h2
  refine ⟨fun id => rfl, ?_⟩
  obtain ⟨fin, h1, h2, h3, h4, h5⟩ := linkNote_threshold envConnMixed sampleUserId
    sampleNoteId "t" storeThreeNotes ⟨[], [], [], [], []⟩
    [⟨0, 9/10, "strong"⟩, ⟨1, 3/5, "at threshold"⟩]
    ⟨sampleNoteId, sampleUserId, "new", "new note", [], 0⟩
    rfl (by decide) (by decide) (fun id => rfl) rfl rfl rfl hidx
  refine ⟨fin, h1, ?_⟩
  have d1 : (decide ((0.6 : ℚ) < ((9 : ℚ)/10))) = true := by
    rw [decide_eq_true_eq]
    norm_num
  have d2 : (decide ((0.6 : ℚ) < ((3 : ℚ)/5))) = false := by
    rw [decide_eq_false_iff_not]
    norm_num
  rw [h3]
  simp only [List.filter_cons, List.filter_nil, d1, d2, Bool.false_eq_true, if_true,
    if_false, List.map_cons, List.map_nil]
  rfl

/-- Counterexample for C1: with one matched person John, running
linkNoteToEntities a second time with identical inputs changes the store
again — the person's linkedNotes gains a duplicate note id — so two runs do
not produce the final link sets of one run. -/
theorem linkNote_not_idempotent_cex :
    (linkNoteToEntities envExtractJohn sampleUserId sampleNoteId "t"
      ((linkNoteToEntities envExtractJohn sampleUserId sampleNoteId "t"
        storePersonJohn).1)).1
      ≠ (linkNoteToEntities envExtractJohn sampleUserId sampleNoteId "t"
        storePersonJohn).1 := by
  decide

/-- C1 (amended): the person-link mutation of linkNoteToEntities is
append-always, not append-if-absent: every matched person's linkedNotes
gains the note id unconditionally, even when the id is already present, so
a repeated run appends a duplicate. -/
theorem linkNote_append_always (env : Env) (uid nid content : String) (s : Store)
    (bag : EntityBag) (p : PersonRec)
    (hx : env.extractEntities content = .ok bag)
    (hu : isValidObjectId uid = true) (hn : isValidObjectId nid = true)
    (hsv : ∀ id, env.saveFails id = false)
    (hnd : (s.persons.map fun r => r.id).Nodup)
    (hp : p ∈ s.persons) (hup : p.userId = uid) (hname : p.name ∈ bag.people) :
    (linkNoteToEntities env uid nid content s).1.persons.find? (fun r => r.id == p.id)
      = some { p with linkedNotes := p.linkedNotes ++ [nid] } :=
  ((linkNote_persons_spec env uid nid content s bag hx hu hn hsv hnd).2 p hp).1
    ⟨hup, hname⟩

/-- Witness for C1 (amended) at the concrete John store: the matched person
ends with exactly one more copy of the note id appended. -/
theorem linkNote_append_always_witness :
    isValidObjectId sampleUserId = true ∧
    (linkNoteToEntities envExtractJohn sampleUserId sampleNoteId "t"
      storePersonJohn).1.persons.find? (fun r => r.id == samplePersonId)
      = some ⟨samplePersonId, sampleUserId, "John", [sampleNoteId], []⟩ :=
  ⟨by decide, linkNote_append_always envExtractJohn sampleUserId sampleNoteId "t"
    storePersonJohn ⟨["John"], [], [], [], []⟩
    ⟨samplePersonId, sampleUserId, "John", [], []⟩
    rfl (by decide) (by decide) (fun id => rfl) (by decide)
    (by decide) rfl (by decide)⟩

/-- Counterexample for C5: the stored person is named john in lowercase and
extraction reports John; a case-insensitive matcher would link them, but the
run leaves the store untouched — matching is case-sensitive. -/
theorem linkNote_case_sensitive_cex :
    linkNoteToEntities envExtractJohn sampleUserId sampleNoteId "t"
      storePersonLowercase = (storePersonLowercase, false) := by
  decide

/-- C5 (amended): an existing Person of the same owner is matched and linked
exactly when its stored name equals an extracted name case-sensitively; all
other persons are left untouched and no Person record is created or removed
for unmatched names. -/
theorem linkNote_person_matching (env : Env) (uid nid content : String) (s : Store)
    (bag : EntityBag)
    (hx : env.extractEntities content = .ok bag)
    (hu : isValidObjectId uid = true) (hn : isValidObjectId nid = true)
    (hsv : ∀ id, env.saveFails id = false)
    (hnd : (s.persons.map fun r => r.id).Nodup) :
    ((linkNoteToEntities env uid nid content s).1.persons.length = s.persons.length) ∧
    ∀ p ∈ s.persons,
      (p.userId = uid ∧ p.name ∈ bag.people →
        (linkNoteToEntities env uid nid content s).1.persons.find? (fun r => r.id == p.id)
          = some { p with linkedNotes := p.linkedNotes ++ [nid] }) ∧
      (¬(p.userId = uid ∧ p.name ∈ bag.people) →
        (linkNoteToEntities env uid nid content s).1.persons.find? (fun r => r.id == p.id)
          = some p) := by
  have h := linkNote_persons_spec env uid nid content s bag hx hu hn hsv hnd
  refine ⟨?_, h.2⟩
  have hlen := congrArg List.length h.1
  simpa using hlen

/-- Witness for C5 (amended): the lowercase john person is not matched by the
extracted John and is returned untouched, with the persons count unchanged. -/
theorem linkNote_person_matching_witness :
    envExtractJohn.extractEntities "t" = .ok ⟨["John"], [], [], [], []⟩ ∧
    (linkNoteToEntities envExtractJohn sampleUserId sampleNoteId "t"
      storePersonLowercase).1.persons.length = storePersonLowercase.persons.length ∧
    (linkNoteToEntities envExtractJohn sampleUserId sampleNoteId "t"
      storePersonLowercase).1.persons.find? (fun r => r.id == samplePersonId)
      = some ⟨samplePersonId, sampleUserId, "john", [], []⟩ := by
  have h := linkNote_person_matching envExtractJohn sampleUserId sampleNoteId "t"
    storePersonLowercase ⟨["John"], [], [], [], []⟩ rfl (by decide) (by decide)
    (fun id => rfl) (by decide)
  exact ⟨rfl, h.1,
    (h.2 ⟨samplePersonId, sampleUserId, "john", [], []⟩ (by decide)).2 (by decide)⟩

/-- Counterexample for C2: extraction rejects while the similarity capability
holds a 0.9-scored connection for the nonempty candidate window; the claim
requires the remaining sub-steps to still run and produce that link, but the
single catch aborts the whole pipeline and the store is returned unchanged. -/
theorem linkNote_failure_aborts_cex :
    linkNoteToEntities envExtractFails sampleUserId sampleNoteId "t" storeThreeNotes
      = (storeThreeNotes, true) := by
  decide

/-- C2 (amended): a sub-step failure is not recovered locally with an empty
result; it is caught only by the per-call top-level handler, which logs it
and returns normally, skipping every remaining sub-step — in particular a
failed extraction aborts similarity matching and all persistence, leaving
the store unchanged. -/
theorem linkNote_extraction_failure_skips_rest (env : Env)
    (uid nid content : String) (s : Store)
    (hx : env.extractEntities content = .error ()) :
    linkNoteToEntities env uid nid content s = (s, true) := by
  rw [linkNoteToEntities, linkNoteBody]
  simp only [hx]
  rfl

/-- Witness for C2 (amended) at a concrete failing extraction. -/
theorem linkNote_extraction_failure_skips_rest_witness :
    envExtractFails.extractEntities "x" = .error () ∧
    linkNoteToEntities envExtractFails sampleUserId sampleNoteId "x" storeEmpty
      = (storeEmpty, true) :=
  ⟨rfl, linkNote_extraction_failure_skips_rest envExtractFails sampleUserId
    sampleNoteId "x" storeEmpty rfl⟩

/-- Counterexample for C3: with a missing (empty, hence uncastable) ownerId
the claim requires a hard failure raised to the caller, but the call is caught
by the same top-level handler and returns normally. -/
theorem linkNote_invalid_owner_no_raise_cex :
    linkNoteToEntities envExtractJohn "" sampleNoteId "t" storePersonJohn
      = (storePersonJohn, true) := by
  decide

/-- C3 (amended): the three linking entry points never raise to the caller;
an invalid ownerId is caught by the same top-level handler as any sub-step
failure, the error is logged, and the call returns normally — for linkNote
and linkPerson with the store unchanged. -/
theorem linkFns_never_raise (env : Env) (uid nid pid pn mid mn cn : String)
    (s : Store) (hu : isValidObjectId uid = false) :
    linkNoteToEntities env uid nid cn s = (s, true) ∧
    linkPersonToRelevantData env uid pid pn s = (s, true) ∧
    (linkMeetingToData env uid mid mn s).2 = true := by
  refine ⟨?_, ?_, ?_⟩
  · cases hx : env.extractEntities cn with
    | error e =>
        rw [linkNoteToEntities, linkNoteBody]
        simp [hx, settle]
    | ok bag =>
        rw [linkNoteToEntities, linkNoteBody]
        simp only [hx]
        rw [linkNotePeoplePhase]
        by_cases he : bag.people.isEmpty
        · simp only [he, if_true]
          rw [linkNoteNotePhase]
          simp [hu, settle]
        · simp [he, hu, settle]
  · rw [linkPersonToRelevantData, linkPersonBody]
    simp [hu, settle]
  · rw [linkMeetingToData, linkMeetingBody]
    cases ha : env.generateActionItemsResult mn with
    | error e => simp [settle]
    | ok items =>
        by_cases hm : isValidObjectId mid
        · simp only [hm, if_true]
          cases hf : findMeetingById s mid with
          | none =>
              rw [linkMeetingPhase2]
              simp [hu, settle]
          | some m =>
              by_cases hsf : env.saveFails mid
              · simp [hsf, settle]
              · simp only [hsf, Bool.false_eq_true, if_false]
                rw [linkMeetingPhase2]
                simp [hu, settle]
        · simp [hm, settle]

/-- Witness for C3 (amended) at the concrete uncastable owner id x. -/
theorem linkFns_never_raise_witness :
    isValidObjectId "x" = false ∧
    linkNoteToEntities baseEnv "x" sampleNoteId "c" storeEmpty = (storeEmpty, true) ∧
    linkPersonToRelevantData baseEnv "x" samplePersonId "John" storeEmpty
      = (storeEmpty, true) ∧
    (linkMeetingToData baseEnv "x" sampleMeetingId "m" storeEmpty).2 = true := by
  have h := linkFns_never_raise baseEnv "x" sampleNoteId samplePersonId "John"
    sampleMeetingId "m" "c" storeEmpty (by decide)
  exact ⟨by decide, h.1, h.2.1, h.2.2⟩

/-- Counterexample for C6: the similarity capability parses to a list whose
first score is 0.2 and second is 0.9; findConnections returns it as is, so
the produced list is not in descending score order. -/
theorem findConnections_unsorted_cex :
    findConnections envUnsorted "s" ["a", "b"]
      = .ok [⟨0, 1/5, "weak"⟩, ⟨1, 9/10, "strong"⟩] ∧
    connectionsRankedOk [⟨0, 1/5, "weak"⟩, ⟨1, 9/10, "strong"⟩] = false := by
  refine ⟨rfl, ?_⟩
  have d1 : (decide (((9 : ℚ)/10) < (1 : ℚ)/5)) = false := by
    rw [decide_eq_false_iff_not]
    norm_num
  have d2 : (((1 : ℚ)/5) == ((9 : ℚ)/10)) = false := by
    rw [beq_eq_false_iff_ne]
    norm_num
  rw [connectionsRankedOk]
  simp [d1, d2]
  intro h
  rcases h with h | h
  · norm_num at h
  · norm_num at h

/-- C6 (amended): AIService.findConnections returns the parsed model output
unchanged, in its original order; no descending-score sorting and no
index tie-breaking is applied by the service. -/
theorem findConnections_no_reorder (env : Env) (src : String) (tgts : List String)
    (cs : List Connection)
    (h : env.findConnectionsResult src tgts = .ok cs) :
    findConnections env src tgts = .ok cs := by
  rw [findConnections]
  exact h

/-- Witness for C6 (amended): the unsorted parsed list is returned verbatim. -/
theorem findConnections_no_reorder_witness :
    envUnsorted.findConnectionsResult "s" ["a"]
      = .ok [⟨0, 1/5, "weak"⟩, ⟨1, 9/10, "strong"⟩] ∧
    findConnections envUnsorted "s" ["a"]
      = .ok [⟨0, 1/5, "weak"⟩, ⟨1, 9/10, "strong"⟩] :=
  ⟨rfl, findConnections_no_reorder envUnsorted "s" ["a"]
    [⟨0, 1/5, "weak"⟩, ⟨1, 9/10, "strong"⟩] rfl⟩

/-- With a valid owner id and no reminder-save failures, the reminder loop
appends exactly one reminder per action item, in order. -/
theorem reminderLoop_ok (env : Env) (uid mid : String) (due : Nat)
    (hu : isValidObjectId uid = true) (hrs : ∀ i, env.reminderSaveFails i = false) :
    ∀ (items : List String) (idx : Nat) (s : Store),
      reminderLoop env uid mid due items idx s
        = .ok { s with reminders := s.reminders ++ items.map fun t => mkReminder uid t due mid } := by
  intro items
  induction items with
  | nil =>
      intro idx s
      rw [reminderLoop]
      simp
  | cons t rest ih =>
      intro idx s
      rw [reminderLoop]
      simp only [hu, if_true, hrs idx, Bool.false_eq_true, if_false]
      rw [ih (idx + 1)]
      simp

/-- C7: for a found meeting with N action items, a valid owner id and
reliable saves, createRemindersFromActionItems creates exactly N reminders,
one per action item in order, each of type task, priority high, due three
days after the call, linked to the meeting; an empty action-item list
creates none. -/
theorem createReminders_cardinality (env : Env) (uid mid : String) (now : Nat)
    (s : Store) (m : MeetingRec)
    (hu : isValidObjectId uid = true) (hm : isValidObjectId mid = true)
    (hf : findMeetingById s mid = some m)
    (hrs : ∀ i, env.reminderSaveFails i = false) :
    createRemindersFromActionItems env uid mid now s
      = ({ s with reminders := s.reminders ++ m.actionItems.map fun t =>
          (⟨uid, t, now + threeDaysMs, "task", "high", mid, "Meeting"⟩ : ReminderRec) },
        false) ∧
    (createRemindersFromActionItems env uid mid now s).1.reminders.length
      = s.reminders.length + m.actionItems.length ∧
    (m.actionItems = [] → (createRemindersFromActionItems env uid mid now s).1 = s) := by
  have hmain : createRemindersFromActionItems env uid mid now s
      = ({ s with reminders := s.reminders ++ m.actionItems.map fun t =>
          (⟨uid, t, now + threeDaysMs, "task", "high", mid, "Meeting"⟩ : ReminderRec) },
        false) := by
    rw [createRemindersFromActionItems, createRemindersBody]
    simp only [hm, if_true, hf]
    by_cases he : m.actionItems.isEmpty
    · have happ : m.actionItems = [] := List.isEmpty_iff.mp he
      rw [happ]
      simp [he, settle]
    · simp only [he, Bool.false_eq_true, if_false]
      rw [reminderLoop_ok env uid mid (now + threeDaysMs) hu hrs m.actionItems 0 s]
      rfl
  refine ⟨hmain, ?_, ?_⟩
  · rw [hmain]
    simp
  · intro happ
    rw [hmain, happ]
    simp

/-- Witness for C7: the concrete two-item meeting yields exactly its two
task reminders due three days out. -/
theorem createReminders_cardinality_witness :
    findMeetingById storeMeetingItems sampleMeetingId
      = some ⟨sampleMeetingId, sampleUserId, "m", none, 5, none,
        ["send proposal", "review budget"], []⟩ ∧
    createRemindersFromActionItems baseEnv sampleUserId sampleMeetingId 100
      storeMeetingItems
      = ({ storeMeetingItems with reminders :=
          [⟨sampleUserId, "send proposal", 100 + threeDaysMs, "task", "high",
            sampleMeetingId, "Meeting"⟩,
           ⟨sampleUserId, "review budget", 100 + threeDaysMs, "task", "high",
            sampleMeetingId, "Meeting"⟩] }, false) := by
  have h := createReminders_cardinality baseEnv sampleUserId sampleMeetingId 100
    storeMeetingItems
    ⟨sampleMeetingId, sampleUserId, "m", none, 5, none,
      ["send proposal", "review budget"], []⟩
    (by decide) (by decide) rfl (fun i => rfl)
  exact ⟨rfl, h.1⟩

/-- Counterexample for C8: with empty input text the pipeline still calls
the capabilities and mutates the store (the extraction result links the John
person), so empty text does not short-circuit to zero mutations. -/
theorem linkNote_empty_text_mutates_cex :
    (linkNoteToEntities envExtractJohn sampleUserId sampleNoteId ""
      storePersonJohn).1 ≠ storePersonJohn := by
  decide

/-- C8 (amended): linkNoteToEntities does not special-case empty text: the
run with empty text is the same computation as with any other text whose
capability responses agree, so its outcome is driven entirely by the
extraction and similarity calls on the empty string; no error reaches the
caller either way. -/
theorem linkNote_no_empty_special_case (env : Env) (uid nid : String) (s : Store)
    (c : String)
    (h1 : env.extractEntities "" = env.extractEntities c)
    (h2 : ∀ tg, env.findConnectionsResult "" tg = env.findConnectionsResult c tg) :
    linkNoteToEntities env uid nid "" s = linkNoteToEntities env uid nid c s := by
  have hphase : ∀ s1, linkNoteNotePhase env uid nid "" s1
      = linkNoteNotePhase env uid nid c s1 := by
    intro s1
    rw [linkNoteNotePhase, linkNoteNotePhase]
    simp only [findConnections, h2]
  rw [linkNoteToEntities, linkNoteToEntities, linkNoteBody, linkNoteBody, h1]
  simp only [hphase]

/-- Witness for C8 (amended): under an environment with text-independent
capability responses, running on empty text equals running on other text. -/
theorem linkNote_no_empty_special_case_witness :
    baseEnv.extractEntities "" = baseEnv.extractEntities "some text" ∧
    linkNoteToEntities baseEnv sampleUserId sampleNoteId "" storeEmpty
      = linkNoteToEntities baseEnv sampleUserId sampleNoteId "some text" storeEmpty :=
  ⟨rfl, linkNote_no_empty_special_case baseEnv sampleUserId sampleNoteId storeEmpty
    "some text" rfl fun _ => rfl⟩

/-- A compiled daily outline is nonempty as soon as the day window holds a
note or a meeting. -/
theorem compileDaily_ne_empty (fmt : Nat → String) (notes : List NoteRec)
    (meetings : List MeetingRec) (h : notes ≠ [] ∨ meetings ≠ []) :
    compileDaily fmt notes meetings ≠ "" := by
  intro hc
  have hlen := congrArg String.length hc
  rw [compileDaily, String.length_append] at hlen
  rw [show ("" : String).length = 0 from rfl] at hlen
  rcases h with h | h
  · have hne : notes.isEmpty = false := by
      cases hni : notes with
      | nil => exact absurd hni h
      | cons a t => rfl
    rw [hne] at hlen
    simp only [Bool.false_eq_true, if_false, String.length_append] at hlen
    rw [show ("## Notes from today\n").length = 20 from rfl] at hlen
    omega
  · have hne : meetings.isEmpty = false := by
      cases hni : meetings with
      | nil => exact absurd hni h
      | cons a t => rfl
    rw [hne] at hlen
    simp only [Bool.false_eq_true, if_false, String.length_append] at hlen
    rw [show ("## Meetings\n").length = 12 from rfl] at hlen
    omega

/-- C9: generateDailySummary returns the fixed sentinel with zero
summarization calls when the owner's day window holds no notes and no
meetings, and otherwise forwards the compiled outline to the summarization
capability once and returns its output. -/
theorem generateDailySummary_spec (env : Env) (fmt : Nat → String) (uid : String)
    (dayStart dayEnd : Nat) (s : Store)
    (hu : isValidObjectId uid = true) :
    (dailyNotes s uid dayStart dayEnd = [] → dailyMeetings s uid dayStart dayEnd = [] →
      generateDailySummary env fmt uid dayStart dayEnd s
        = .ok ("No activity recorded for today.", 0)) ∧
    ((dailyNotes s uid dayStart dayEnd ≠ [] ∨ dailyMeetings s uid dayStart dayEnd ≠ []) →
      ∀ out, env.generateDailySummaryResult
          (compileDaily fmt (dailyNotes s uid dayStart dayEnd)
            (dailyMeetings s uid dayStart dayEnd)) = .ok out →
        generateDailySummary env fmt uid dayStart dayEnd s = .ok (out, 1)) := by
  constructor
  · intro hn hm
    rw [generateDailySummary]
    simp only [hu, if_true]
    rw [hn, hm]
    rfl
  · intro hne out hout
    rw [generateDailySummary]
    simp only [hu, if_true]
    have hcne : (compileDaily fmt (dailyNotes s uid dayStart dayEnd)
        (dailyMeetings s uid dayStart dayEnd) == "") = false :=
      beq_eq_false_iff_ne.mpr (compileDaily_ne_empty fmt _ _ hne)
    simp only [hcne, Bool.false_eq_true, if_false, hout]

/-- Witness for C9: the empty store yields the sentinel with no capability
call, and the store holding one meeting in the window forwards the outline. -/
theorem generateDailySummary_spec_witness :
    isValidObjectId sampleUserId = true ∧
    generateDailySummary baseEnv (fun _ => "09:00") sampleUserId 0 10 storeEmpty
      = .ok ("No activity recorded for today.", 0) ∧
    generateDailySummary baseEnv (fun _ => "09:00") sampleUserId 0 10 storeMeetingItems
      = .ok ("ok", 1) := by
  refine ⟨by decide, ?_, ?_⟩
  · exact (generateDailySummary_spec baseEnv (fun _ => "09:00") sampleUserId 0 10
      storeEmpty (by decide)).1 rfl rfl
  · exact (generateDailySummary_spec baseEnv (fun _ => "09:00") sampleUserId 0 10
      storeMeetingItems (by decide)).2 (Or.inr (by decide)) "ok" rfl

/-- Saving the same person document twice equals saving it once. -/
theorem updatePerson_idem (s : Store) (p : PersonRec) :
    updatePersonInStore (updatePersonInStore s p) p = updatePersonInStore s p := by
  simp only [updatePersonInStore, List.map_map]
  congr 1
  apply List.map_congr_left
  intro q hq
  by_cases h : q.id == p.id
  · simp only [Function.comp_apply, h, if_true, beq_self_eq_true]
  · simp only [Function.comp_apply, h, Bool.false_eq_true, if_false]

/-- C10: linkPersonToRelevantData is idempotent — running it again on its own
output store changes nothing, because both of its link mutations are
append-if-absent — and it preserves duplicate-freedom of every person's
linkedNotes and meetings lists. -/
theorem linkPerson_idempotent (env : Env) (uid pid name : String) (s : Store) :
    (linkPersonToRelevantData env uid pid name
      ((linkPersonToRelevantData env uid pid name s).1)).1
      = (linkPersonToRelevantData env uid pid name s).1 ∧
    ((∀ p ∈ s.persons, p.linkedNotes.Nodup ∧ p.meetings.Nodup) →
      ∀ p ∈ ((linkPersonToRelevantData env uid pid name s).1).persons,
        p.linkedNotes.Nodup ∧ p.meetings.Nodup) := by
  have hgen : ∀ b : Bool, linkPersonToRelevantData env uid pid name s = (s, b) →
      (linkPersonToRelevantData env uid pid name
        ((linkPersonToRelevantData env uid pid name s).1)).1
        = (linkPersonToRelevantData env uid pid name s).1 ∧
      ((∀ p ∈ s.persons, p.linkedNotes.Nodup ∧ p.meetings.Nodup) →
        ∀ p ∈ ((linkPersonToRelevantData env uid pid name s).1).persons,
          p.linkedNotes.Nodup ∧ p.meetings.Nodup) := by
    intro b hFs
    constructor
    · simp only [hFs]
    · intro hinv
      simp only [hFs]
      exact hinv
  by_cases hu : isValidObjectId uid
  case neg =>
    refine hgen true ?_
    rw [linkPersonToRelevantData, linkPersonBody]
    simp [hu, settle]
  case pos =>
  by_cases hpd : isValidObjectId pid
  case neg =>
    refine hgen true ?_
    rw [linkPersonToRelevantData, linkPersonBody]
    simp [hu, hpd, settle]
  case pos =>
  cases hp : findPersonById s pid with
  | none =>
      refine hgen false ?_
      rw [linkPersonToRelevantData, linkPersonBody]
      simp [hu, hpd, hp, settle]
  | some p =>
  by_cases hsf : env.saveFails pid
  case pos =>
      refine hgen true ?_
      rw [linkPersonToRelevantData, linkPersonBody]
      simp [hu, hpd, hp, hsf, settle]
  case neg =>
  have hpi : p.id = pid := by
    rw [findPersonById] at hp
    have := List.find?_some (p := fun q : PersonRec => q.id == pid) (l := s.persons) hp
    exact beq_iff_eq.mp this
  subst hpi
  have hFs : linkPersonToRelevantData env uid p.id name s =
      (updatePersonInStore s
        { p with
          linkedNotes := appendIfAbsentLoop (noteMentions name) NoteRec.id
            ((s.notes.filter fun n => n.userId == uid).take 100) p.linkedNotes,
          meetings := appendIfAbsentLoop (meetingMentions name) MeetingRec.id
            ((s.meetings.filter fun m => m.userId == uid).take 100) p.meetings },
        false) := by
    rw [linkPersonToRelevantData, linkPersonBody]
    simp only [hu, if_true, hpd, hp, hsf, Bool.false_eq_true, if_false]
    rfl
  constructor
  · rw [hFs]
    rw [linkPersonToRelevantData, linkPersonBody]
    have hp2 : findPersonById (updatePersonInStore s
        { p with
          linkedNotes := appendIfAbsentLoop (noteMentions name) NoteRec.id
            ((s.notes.filter fun n => n.userId == uid).take 100) p.linkedNotes,
          meetings := appendIfAbsentLoop (meetingMentions name) MeetingRec.id
            ((s.meetings.filter fun m => m.userId == uid).take 100) p.meetings }) p.id
        = some { p with
          linkedNotes := appendIfAbsentLoop (noteMentions name) NoteRec.id
            ((s.notes.filter fun n => n.userId == uid).take 100) p.linkedNotes,
          meetings := appendIfAbsentLoop (meetingMentions name) MeetingRec.id
            ((s.meetings.filter fun m => m.userId == uid).take 100) p.meetings } := by
      have h1 := find?_update_self (fun r : PersonRec => r.id)
        { p with
          linkedNotes := appendIfAbsentLoop (noteMentions name) NoteRec.id
            ((s.notes.filter fun n => n.userId == uid).take 100) p.linkedNotes,
          meetings := appendIfAbsentLoop (meetingMentions name) MeetingRec.id
            ((s.meetings.filter fun m => m.userId == uid).take 100) p.meetings }
        s.persons
      refine h1.trans ?_
      rw [show (s.persons.find? fun q => q.id == p.id) = some p from hp]
      rfl
    simp only [hu, if_true, hpd, hp2, hsf, Bool.false_eq_true, if_false]
    have hn2 : (updatePersonInStore s
        { p with
          linkedNotes := appendIfAbsentLoop (noteMentions name) NoteRec.id
            ((s.notes.filter fun n => n.userId == uid).take 100) p.linkedNotes,
          meetings := appendIfAbsentLoop (meetingMentions name) MeetingRec.id
            ((s.meetings.filter fun m => m.userId == uid).take 100) p.meetings }).notes = s.notes := rfl
    have hm2 : (updatePersonInStore s
        { p with
          linkedNotes := appendIfAbsentLoop (noteMentions name) NoteRec.id
            ((s.notes.filter fun n => n.userId == uid).take 100) p.linkedNotes,
          meetings := appendIfAbsentLoop (meetingMentions name) MeetingRec.id
            ((s.meetings.filter fun m => m.userId == uid).take 100) p.meetings }).meetings = s.meetings := rfl
    simp only [hn2, hm2, appendIfAbsentLoop_idem, settle, updatePerson_idem]
  · intro hinv
    rw [hFs]
    intro q hq
    rcases List.mem_map.mp hq with ⟨r, hr, hqr⟩
    subst hqr
    by_cases hc : r.id == p.id
    · simp only [hc, if_true]
      have hpmem : p ∈ s.persons :=
        List.mem_of_find?_eq_some (p := fun q : PersonRec => q.id == p.id) hp
      exact ⟨appendIfAbsentLoop_nodup _ _ _ _ (hinv p hpmem).1,
        appendIfAbsentLoop_nodup _ _ _ _ (hinv p hpmem).2⟩
    · simp only [hc, Bool.false_eq_true, if_false]
      exact hinv r hr

/-- Witness for C10: re-running linkPersonToRelevantData on its own output
for the concrete John store changes nothing, and both link lists stay free
of duplicates. -/
theorem linkPerson_idempotent_witness :
    (linkPersonToRelevantData baseEnv sampleUserId samplePersonId "John"
      ((linkPersonToRelevantData baseEnv sampleUserId samplePersonId "John"
        storePersonAndData).1)).1
      = (linkPersonToRelevantData baseEnv sampleUserId samplePersonId "John"
        storePersonAndData).1 ∧
    ∀ p ∈ ((linkPersonToRelevantData baseEnv sampleUserId samplePersonId "John"
        storePersonAndData).1).persons,
      p.linkedNotes.Nodup ∧ p.meetings.Nodup :=
  ⟨(linkPerson_idempotent baseEnv sampleUserId samplePersonId "John"
      storePersonAndData).1,
    (linkPerson_idempotent baseEnv sampleUserId samplePersonId "John"
      storePersonAndData).2 (by decide)⟩
